import Mathlib

/-!
Verification development for the module loading and execution orchestration
subsystem of the did-zk client repository.

The definitions below are shallow embeddings of the TypeScript and JavaScript
source files:
  - src/lib/wasm-loader.ts        (class WASMLoader)
  - src/lib/wasm-worker-client.ts (class WASMWorkerClient, class CryptoWASM)
  - public/wasm-worker.js         (class WASMWorkerManager)

Machine numbers are modelled with Nat, Int and Rat; fallible code returns
Option or Except; the asynchronous state machines (the worker communication
channel and the loader bookkeeping) are modelled as explicit step functions
over state records, with the synchronous prefix of each JavaScript function
treated as one atomic step, which is exactly the atomicity granted by the
single threaded JavaScript event loop.
-/

/- ======================================================================
   Hex conversion utilities.
   Embeds CryptoWASM.uint8ArrayToHex / hexToUint8Array / isValidHex
   (src/lib/wasm-worker-client.ts) whose bodies are identical to the
   private copies in WASMLoader (src/lib/wasm-loader.ts).
   ====================================================================== -/

/-- Lowercase hex digit character, as produced by the JavaScript expression
byte.toString(16): 0-9 then a-f. -/
def hexDigitChar (n : Nat) : Char :=
  if n < 10 then Char.ofNat (48 + n) else Char.ofNat (87 + n)

/-- Minimal length base 16 rendering of a natural number, most significant
digit first, as produced by Number.prototype.toString(16) for a nonnegative
integer. Fuel bounded recursion; fuel n + 1 always suffices. -/
def natToHexAux : Nat → Nat → List Char
  | 0, _ => []
  | fuel + 1, n =>
    if n < 16 then [hexDigitChar n]
    else natToHexAux fuel (n / 16) ++ [hexDigitChar (n % 16)]

/-- JavaScript byte.toString(16) for a byte value. -/
def jsNumToHexString (n : Nat) : String :=
  ⟨natToHexAux (n + 1) n⟩

/-- JavaScript String.prototype.padStart(len, c): prepend copies of c until
the length is at least len. -/
def padStart (s : String) (len : Nat) (c : Char) : String :=
  ⟨List.replicate (len - s.length) c ++ s.data⟩

/-- One byte of Array.from(bytes).map(byte => byte.toString(16).padStart(2, ...)):
the byte rendered as (at least) two hex digits, zero padded. -/
def byteToHex (b : Nat) : String :=
  padStart (jsNumToHexString b) 2 '0'

/-- CryptoWASM.uint8ArrayToHex: render each byte as two zero padded lowercase
hex digits and join with the empty separator. -/
def uint8ArrayToHex (bytes : List Nat) : String :=
  ⟨(bytes.map (fun b => (byteToHex b).data)).flatten⟩

/-- Value of one hex digit character, accepting both cases, as parseInt with
radix 16 does. -/
def hexCharVal (c : Char) : Option Nat :=
  if 48 ≤ c.toNat ∧ c.toNat ≤ 57 then some (c.toNat - 48)
  else if 97 ≤ c.toNat ∧ c.toNat ≤ 102 then some (c.toNat - 87)
  else if 65 ≤ c.toNat ∧ c.toNat ≤ 70 then some (c.toNat - 55)
  else none

/-- JavaScript parseInt(two character string, 16): parses the longest valid
prefix, returning NaN (here none) when the first character is not a hex
digit. -/
def parseIntHexPair (c1 c2 : Char) : Option Nat :=
  match hexCharVal c1, hexCharVal c2 with
  | some v1, some v2 => some (16 * v1 + v2)
  | some v1, none => some v1
  | none, _ => none

/-- The loop of hexToUint8Array: bytes[i / 2] = parseInt(hex.substr(i, 2), 16)
for i = 0, 2, 4, ... Storing NaN into a Uint8Array stores 0, hence getD 0. -/
def hexPairsToBytes : List Char → List Nat
  | c1 :: c2 :: rest => (parseIntHexPair c1 c2).getD 0 :: hexPairsToBytes rest
  | _ => []

/-- The conditional hex.startsWith(0x) ? hex.slice(2) : hex, on the
character list of the string. -/
def stripHexPrefixChars (cs : List Char) : List Char :=
  match cs with
  | c1 :: c2 :: rest => if c1 = '0' ∧ c2 = 'x' then rest else c1 :: c2 :: rest
  | _ => cs

/-- CryptoWASM.hexToUint8Array: strip an optional 0x prefix and decode
consecutive hex digit pairs into bytes. -/
def hexToUint8Array (hex : String) : List Nat :=
  hexPairsToBytes (stripHexPrefixChars hex.data)

/-- A character allowed by the regular expression used in isValidHex
(digits and both cases of a-f). -/
def isHexDigitChar (c : Char) : Bool :=
  (48 ≤ c.toNat && c.toNat ≤ 57) ||
  (97 ≤ c.toNat && c.toNat ≤ 102) ||
  (65 ≤ c.toNat && c.toNat ≤ 70)

/-- CryptoWASM.isValidHex: nonempty, even length after stripping an optional
0x prefix, and consisting of hex digit characters only. -/
def isValidHex (hex : String) : Bool :=
  if hex.length = 0 then false
  else
    let cleanHex := stripHexPrefixChars hex.data
    decide (0 < cleanHex.length) && decide (cleanHex.length % 2 = 0) &&
      cleanHex.all isHexDigitChar

/- ======================================================================
   CryptoWASM.signMessage input validation
   (src/lib/wasm-worker-client.ts).
   ====================================================================== -/

/-- Outcome of the validation prefix of CryptoWASM.signMessage: either an
error is thrown before the WASM module is invoked (the thrown message is
later wrapped as Failed to sign message: ...), or the module is called with
the two hex encoded arguments. -/
inductive SignValidation where
  | rejected (msg : String)
  | callModule (privateKeyHex messageHex : String)
deriving DecidableEq, Repr

/-- The validation performed by CryptoWASM.signMessage before calling
wasmLoader.signMessage, in source order: empty private key, empty message,
hex validity of the encoded private key, then the 1 MiB message size limit. -/
def signMessageValidate (privateKey message : List Nat) : SignValidation :=
  if privateKey.length = 0 then .rejected "Private key cannot be empty"
  else if message.length = 0 then .rejected "Message cannot be empty"
  else if isValidHex (uint8ArrayToHex privateKey) = false then
    .rejected "Invalid private key format"
  else if 1024 * 1024 < message.length then
    .rejected "Message too large (max 1MB)"
  else .callModule (uint8ArrayToHex privateKey) (uint8ArrayToHex message)

/- ======================================================================
   JSON values, JSON.parse and JSON.stringify.
   These model the platform built-ins used by safeWasmCall /
   safeWasmCallWithParams (src/lib/wasm-loader.ts) and by
   executeWASMFunction (public/wasm-worker.js). Numeric literals are kept
   as their source text; only success versus parse failure matters to the
   claims.
   ====================================================================== -/

/-- A JSON value. Numbers keep their literal text. -/
inductive Json where
  | null
  | bool (b : Bool)
  | num (lit : String)
  | str (s : String)
  | arr (elems : List Json)
  | obj (fields : List (String × Json))
deriving Repr

/-- JSON whitespace: space, tab, line feed, carriage return. -/
def jsonWs (c : Char) : Bool :=
  c = ' ' || c.toNat = 9 || c.toNat = 10 || c.toNat = 13

/-- Drop leading JSON whitespace. -/
def skipJsonWs : List Char → List Char
  | c :: cs => if jsonWs c then skipJsonWs cs else c :: cs
  | [] => []

/-- Decimal digit character. -/
def isDigitChar (c : Char) : Bool :=
  48 ≤ c.toNat && c.toNat ≤ 57

/-- Longest prefix of decimal digits, with the remainder. -/
def takeDigits : List Char → List Char × List Char
  | c :: cs =>
    if isDigitChar c then
      let (ds, rest) := takeDigits cs
      (c :: ds, rest)
    else ([], c :: cs)
  | [] => ([], [])

/-- Integer part of a JSON number: 0, or a nonzero digit followed by digits
(JSON forbids redundant leading zeros). -/
def parseJsonIntPart : List Char → Option (List Char × List Char)
  | c :: cs =>
    if c = '0' then some ([c], cs)
    else if isDigitChar c then
      let (ds, rest) := takeDigits cs
      some (c :: ds, rest)
    else none
  | [] => none

/-- Optional fraction part of a JSON number: a dot followed by at least one
digit. -/
def parseJsonFracPart : List Char → Option (List Char × List Char)
  | c :: cs =>
    if c = '.' then
      match cs with
      | d :: _ =>
        if isDigitChar d then
          let (ds, rest) := takeDigits cs
          some (c :: ds, rest)
        else none
      | [] => none
    else some ([], c :: cs)
  | [] => some ([], [])

/-- Optional exponent part of a JSON number. -/
def parseJsonExpPart : List Char → Option (List Char × List Char)
  | c :: cs =>
    if c = 'e' ∨ c = 'E' then
      let (sign, cs3) :=
        match cs with
        | s :: t => if s = '+' ∨ s = '-' then ([s], t) else (([] : List Char), s :: t)
        | [] => ([], [])
      match cs3 with
      | d :: _ =>
        if isDigitChar d then
          let (ds, rest) := takeDigits cs3
          some (c :: (sign ++ ds), rest)
        else none
      | [] => none
    else some ([], c :: cs)
  | [] => some ([], [])

/-- A full JSON numeric literal, returned as its text. -/
def parseJsonNumber (cs : List Char) : Option (String × List Char) :=
  let (neg, cs1) :=
    match cs with
    | c :: t => if c = '-' then (['-'], t) else (([] : List Char), c :: t)
    | [] => ([], [])
  match parseJsonIntPart cs1 with
  | none => none
  | some (ip, cs2) =>
    match parseJsonFracPart cs2 with
    | none => none
    | some (fp, cs3) =>
      match parseJsonExpPart cs3 with
      | none => none
      | some (ep, rest) => some (⟨neg ++ ip ++ fp ++ ep⟩, rest)

/-- Single character JSON escapes after a backslash. -/
def jsonEscapeChar (c : Char) : Option Char :=
  if c = Char.ofNat 34 then some (Char.ofNat 34)
  else if c = Char.ofNat 92 then some (Char.ofNat 92)
  else if c = '/' then some '/'
  else if c = 'b' then some (Char.ofNat 8)
  else if c = 'f' then some (Char.ofNat 12)
  else if c = 'n' then some (Char.ofNat 10)
  else if c = 'r' then some (Char.ofNat 13)
  else if c = 't' then some (Char.ofNat 9)
  else none

/-- Body of a JSON string after the opening quote, up to and including the
closing quote. Unescaped control characters are invalid. -/
def parseJsonStringBody : Nat → List Char → Option (List Char × List Char)
  | 0, _ => none
  | fuel + 1, cs =>
    match cs with
    | [] => none
    | c :: rest =>
      if c = Char.ofNat 34 then some ([], rest)
      else if c = Char.ofNat 92 then
        match rest with
        | e2 :: rest2 =>
          if e2 = 'u' then
            match rest2 with
            | h1 :: h2 :: h3 :: h4 :: rest3 =>
              match hexCharVal h1, hexCharVal h2, hexCharVal h3, hexCharVal h4 with
              | some v1, some v2, some v3, some v4 =>
                match parseJsonStringBody fuel rest3 with
                | some (tail, r) =>
                  some (Char.ofNat (((v1 * 16 + v2) * 16 + v3) * 16 + v4) :: tail, r)
                | none => none
              | _, _, _, _ => none
            | _ => none
          else
            match jsonEscapeChar e2 with
            | some ec =>
              match parseJsonStringBody fuel rest2 with
              | some (tail, r) => some (ec :: tail, r)
              | none => none
            | none => none
        | [] => none
      else if c.toNat < 32 then none
      else
        match parseJsonStringBody fuel rest with
        | some (tail, r) => some (c :: tail, r)
        | none => none

mutual

/-- Recursive descent for one JSON value, fuel bounded. -/
def parseJsonValue : Nat → List Char → Option (Json × List Char)
  | 0, _ => none
  | fuel + 1, cs =>
    match skipJsonWs cs with
    | 'n' :: 'u' :: 'l' :: 'l' :: rest => some (.null, rest)
    | 't' :: 'r' :: 'u' :: 'e' :: rest => some (.bool true, rest)
    | 'f' :: 'a' :: 'l' :: 's' :: 'e' :: rest => some (.bool false, rest)
    | c :: rest =>
      if c = Char.ofNat 34 then
        match parseJsonStringBody (rest.length + 1) rest with
        | some (body, r) => some (.str ⟨body⟩, r)
        | none => none
      else if c = Char.ofNat 91 then
        match skipJsonWs rest with
        | d :: r2 =>
          if d = Char.ofNat 93 then some (.arr [], r2)
          else
            match parseJsonElements fuel (d :: r2) with
            | some (elems, r3) => some (.arr elems, r3)
            | none => none
        | [] => none
      else if c = Char.ofNat 123 then
        match skipJsonWs rest with
        | d :: r2 =>
          if d = Char.ofNat 125 then some (.obj [], r2)
          else
            match parseJsonMembers fuel (d :: r2) with
            | some (fields, r3) => some (.obj fields, r3)
            | none => none
        | [] => none
      else
        match parseJsonNumber (c :: rest) with
        | some (lit, r) => some (.num lit, r)
        | none => none
    | [] => none

/-- Comma separated array elements up to the closing bracket. -/
def parseJsonElements : Nat → List Char → Option (List Json × List Char)
  | 0, _ => none
  | fuel + 1, cs =>
    match parseJsonValue fuel cs with
    | none => none
    | some (v, rest) =>
      match skipJsonWs rest with
      | c :: r2 =>
        if c = ',' then
          match parseJsonElements fuel r2 with
          | some (vs, r3) => some (v :: vs, r3)
          | none => none
        else if c = Char.ofNat 93 then some ([v], r2)
        else none
      | [] => none

/-- Comma separated object members up to the closing brace. -/
def parseJsonMembers : Nat → List Char → Option (List (String × Json) × List Char)
  | 0, _ => none
  | fuel + 1, cs =>
    match skipJsonWs cs with
    | c :: rest =>
      if c = Char.ofNat 34 then
        match parseJsonStringBody (rest.length + 1) rest with
        | none => none
        | some (key, r2) =>
          match skipJsonWs r2 with
          | d :: r3 =>
            if d = ':' then
              match parseJsonValue fuel r3 with
              | none => none
              | some (v, r4) =>
                match skipJsonWs r4 with
                | e2 :: r5 =>
                  if e2 = ',' then
                    match parseJsonMembers fuel r5 with
                    | some (fs, r6) => some ((⟨key⟩, v) :: fs, r6)
                    | none => none
                  else if e2 = Char.ofNat 125 then some ([(⟨key⟩, v)], r5)
                  else none
                | [] => none
            else none
          | [] => none
      else none
    | [] => none

end

/-- JSON.parse: parse one value and require only whitespace to remain. -/
def jsonParse (s : String) : Option Json :=
  match parseJsonValue (2 * s.data.length + 2) s.data with
  | some (v, rest) => if skipJsonWs rest = [] then some v else none
  | none => none

/-- Escape of one character inside a JSON string literal. -/
def jsonEscapeStringChar (c : Char) : List Char :=
  if c = Char.ofNat 34 then [Char.ofNat 92, Char.ofNat 34]
  else if c = Char.ofNat 92 then [Char.ofNat 92, Char.ofNat 92]
  else if c.toNat = 10 then [Char.ofNat 92, 'n']
  else if c.toNat = 13 then [Char.ofNat 92, 'r']
  else if c.toNat = 9 then [Char.ofNat 92, 't']
  else if c.toNat = 8 then [Char.ofNat 92, 'b']
  else if c.toNat = 12 then [Char.ofNat 92, 'f']
  else [c]

/-- A quoted JSON string literal. -/
def jsonStringifyString (s : String) : List Char :=
  Char.ofNat 34 :: (s.data.map jsonEscapeStringChar).flatten ++ [Char.ofNat 34]

mutual

/-- JSON.stringify of a value (no indentation argument). -/
def jsonStringify : Json → List Char
  | .null => "null".data
  | .bool b => if b then "true".data else "false".data
  | .num lit => lit.data
  | .str s => jsonStringifyString s
  | .arr elems => Char.ofNat 91 :: (jsonStringifyElems elems ++ [Char.ofNat 93])
  | .obj fields => Char.ofNat 123 :: (jsonStringifyFields fields ++ [Char.ofNat 125])

/-- Comma separated serialization of array elements. -/
def jsonStringifyElems : List Json → List Char
  | [] => []
  | [v] => jsonStringify v
  | v :: vs => jsonStringify v ++ ',' :: jsonStringifyElems vs

/-- Comma separated serialization of object members. -/
def jsonStringifyFields : List (String × Json) → List Char
  | [] => []
  | [(k, v)] => jsonStringifyString k ++ ':' :: jsonStringify v
  | (k, v) :: fs =>
    jsonStringifyString k ++ ':' :: jsonStringify v ++ ',' :: jsonStringifyFields fs

end

/- ======================================================================
   Worker side function execution (public/wasm-worker.js,
   WASMWorkerManager.executeWASMFunction) and the function invocation
   helpers safeWasmCall / safeWasmCallWithParams (src/lib/wasm-loader.ts;
   the two helpers share one body up to the parameter list passed on).
   ====================================================================== -/

/-- The value returned by the call self[functionName](...args) inside the
worker: the WASM entry points return strings, other values pass through. -/
inductive WasmFnResult where
  | strVal (s : String)
  | otherVal (j : Json)
deriving Repr

/-- The result field of a RESPONSE message: either the raw text (when the
text was not valid JSON) or structured data. -/
inductive WorkerValue where
  | raw (s : String)
  | parsed (j : Json)
deriving Repr

/-- Outcome of WASMWorkerManager.executeWASMFunction. -/
inductive WorkerExecOutcome where
  | success (result : WorkerValue)
  | failure (error : String)
deriving Repr

/-- WASMWorkerManager.executeWASMFunction: fail when the named function is
not callable in the worker scope; otherwise call it, opportunistically
JSON.parse a textual result, and on a parse failure return the raw string
as is. -/
def executeWASMFunction (available : Bool) (functionName : String)
    (callResult : WasmFnResult) : WorkerExecOutcome :=
  if available = false then
    .failure ("WASM function " ++ functionName ++ " not available")
  else
    match callResult with
    | .strVal s =>
      match jsonParse s with
      | some j => .success (.parsed j)
      | none => .success (.raw s)
    | .otherVal j => .success (.parsed j)

/-- Outcome of WASMLoader.safeWasmCall as seen by its caller: either the
JSON.parse of the textual result, or a thrown error whose message is the
operation name followed by the words failed and the cause. -/
inductive SafeCallOutcome where
  | ok (j : Json)
  | failedWith (operation : String)
deriving Repr

/-- WASMLoader.safeWasmCall / safeWasmCallWithParams. The worker branch is
taken when useWebWorker is set and a function name (and, for the WithParams
variant, a parameter array) is supplied; a structured worker result is
JSON.stringify-ed back to text; in all branches the final text is passed to
JSON.parse inside the try block, and every throw is caught and rethrown as
the wrapped operation error. -/
def safeWasmCall (useWebWorker hasFunctionName : Bool)
    (workerCall : Except String WorkerValue)
    (mainCall : Except String String)
    (operation : String) : SafeCallOutcome :=
  let result? : Except String String :=
    if useWebWorker && hasFunctionName then
      match workerCall with
      | .error e => .error e
      | .ok (.raw s) => .ok s
      | .ok (.parsed j) => .ok ⟨jsonStringify j⟩
    else mainCall
  match result? with
  | .error _ => .failedWith operation
  | .ok s =>
    match jsonParse s with
    | some j => .ok j
    | none => .failedWith operation

/- ======================================================================
   Cache Manager: WASMLoader.getCacheKey / getCachedWasm
   (src/lib/wasm-loader.ts). The browser Cache is modelled as an
   association list from request keys to stored responses; a stored
   response carries its bytes and the x-cache-time header.
   ====================================================================== -/

/-- The WASM_VERSION constant used for cache busting. -/
def WASM_VERSION : String := "1.0.1"

/-- The CACHE_PREFIX constant naming the cache bucket. -/
def CACHE_PREFIX : String := "gnark-did-wasm"

/-- The CACHE_EXPIRY constant: 7 days in milliseconds. -/
def CACHE_EXPIRY : Nat := 7 * 24 * 60 * 60 * 1000

/-- JavaScript String.prototype.replace with a string pattern: replace the
first occurrence of the character only. -/
def replaceFirstChar : List Char → Char → Char → List Char
  | [], _, _ => []
  | c :: cs, a, b => if c = a then b :: cs else c :: replaceFirstChar cs a b

/-- WASMLoader.getCacheKey: prefix, path with its first slash replaced by a
dash, version tag, and an optional compression suffix. -/
def getCacheKey (wasmPath : String) (compressed : Bool) : String :=
  let suffix := if compressed then "-compressed" else ""
  CACHE_PREFIX ++ "-" ++ ⟨replaceFirstChar wasmPath.data '/' '-'⟩ ++ "-v" ++
    WASM_VERSION ++ suffix

/-- A cached response: the stored bytes and the value of the x-cache-time
header (absent when the response was stored without it). -/
structure CacheEntry where
  bytes : List Nat
  cacheTime : Option Nat
deriving DecidableEq, Repr

/-- The persistent cache bucket: an association list keyed by request key. -/
abbrev WasmCache := List (String × CacheEntry)

/-- cache.match(key). -/
def cacheMatch (cache : WasmCache) (key : String) : Option CacheEntry :=
  cache.lookup key

/-- cache.delete(key). -/
def cacheDelete (cache : WasmCache) (key : String) : WasmCache :=
  cache.filter (fun p => p.1 != key)

/-- WASMLoader.getCachedWasm at time now: probe the compressed key first,
fall back to the uncompressed key; serve an entry younger than CACHE_EXPIRY;
delete both key variants and report a miss for an entry at least that old;
an entry without the x-cache-time header is neither served nor deleted.
Returns the result of the lookup together with the cache after it. -/
def getCachedWasm (now : Nat) (cache : WasmCache) (wasmPath : String) :
    Option (List Nat) × WasmCache :=
  match
    match cacheMatch cache (getCacheKey wasmPath true) with
    | some r => some r
    | none => cacheMatch cache (getCacheKey wasmPath false)
  with
  | some r =>
    match r.cacheTime with
    | some t =>
      if (now : Int) - (t : Int) < (CACHE_EXPIRY : Int) then (some r.bytes, cache)
      else
        (none,
          cacheDelete (cacheDelete cache (getCacheKey wasmPath true))
            (getCacheKey wasmPath false))
    | none => (none, cache)
  | none => (none, cache)

/- ======================================================================
   Communication Channel: WASMWorkerClient
   (src/lib/wasm-worker-client.ts). State: the monotone message id
   counter, the pendingPromises map (id to the deadline of its 60 second
   timer), and the settlements that have been delivered to callers, in
   order. Each event is the synchronous body of one callback:
     send        - the synchronous registration part of sendMessage
     response    - handleWorkerMessage receiving a RESPONSE message
     timerFire   - the 60 second setTimeout callback of one request
     terminate   - WASMWorkerClient.terminate
   ====================================================================== -/

/-- The 60 second per request timeout of sendMessage, in milliseconds. -/
def WORKER_MESSAGE_TIMEOUT_MS : Nat := 60000

/-- How a pending request was settled: by a RESPONSE message carrying its
id (resolve on success, reject on a worker error), or by its timeout. -/
inductive Settlement where
  | result (success : Bool)
  | timeout
deriving DecidableEq, Repr

/-- The channel state of WASMWorkerClient. -/
structure ChannelState where
  messageId : Nat
  pending : List (Nat × Nat)
  settlements : List (Nat × Settlement)
  isReady : Bool
deriving DecidableEq, Repr

/-- The freshly constructed client: messageId = 0, nothing pending. -/
def initChannel : ChannelState :=
  { messageId := 0, pending := [], settlements := [], isReady := false }

/-- An event processed by the channel. -/
inductive ChEvent where
  | send (now : Nat)
  | response (id : Nat) (success : Bool)
  | timerFire (id : Nat)
  | terminate
deriving DecidableEq, Repr

/-- Remove every binding of an id from an association list. -/
def removeKey (id : Nat) (l : List (Nat × Nat)) : List (Nat × Nat) :=
  l.filter (fun p => p.1 != id)

/-- pendingPromises.has(id). -/
def hasPending (st : ChannelState) (id : Nat) : Bool :=
  (st.pending.lookup id).isSome

/-- One channel event.
send: registers the fresh id with its 60 second deadline and increments the
counter. response: if the id is pending, delete it and settle the caller;
otherwise the message is ignored. timerFire: the timeout callback checks
has(id); if still pending, delete the slot and reject with the timeout
error; otherwise it does nothing (the reject wrapper cleared nothing
observable). terminate: worker teardown, pendingPromises.clear() and
isReady = false; no pending caller is settled. -/
def procEvent (st : ChannelState) : ChEvent → ChannelState
  | .send now =>
    { st with
      messageId := st.messageId + 1
      pending := (st.messageId, now + WORKER_MESSAGE_TIMEOUT_MS) :: st.pending }
  | .response id success =>
    if hasPending st id then
      { st with
        pending := removeKey id st.pending
        settlements := st.settlements ++ [(id, Settlement.result success)] }
    else st
  | .timerFire id =>
    if hasPending st id then
      { st with
        pending := removeKey id st.pending
        settlements := st.settlements ++ [(id, Settlement.timeout)] }
    else st
  | .terminate =>
    { st with pending := [], isReady := false }

/-- Run a list of channel events. -/
def runChannel (st : ChannelState) (events : List ChEvent) : ChannelState :=
  events.foldl procEvent st

/- ======================================================================
   Module Loader orchestration state: WASMLoader
   (src/lib/wasm-loader.ts). The loadingPromises object is modelled by
   one boolean per key (crypto, did, both); startedCryptoLoads and
   startedDIDLoads count how many executions of _loadCryptoInternal and
   _loadDIDInternal have been started, that is, how many independent
   fetch plus instantiation attempts exist. Each event below is one
   synchronous step of the event loop:
     callLoadCrypto / callLoadDID  - the synchronous check and set prefix
         of loadCrypto() / loadDID() before its first await
     callLoadBoth  - the synchronous prefix of loadBoth() and
         _loadBothInternal, which starts _loadCryptoInternal and
         _loadDIDInternal directly for each module not yet loaded
     cryptoWorkerFailure / didWorkerFailure - the catch handler of the
         worker branch inside the internal loader (downgrades
         useWebWorker, deletes the per module promise, then continues on
         the main thread within the same internal execution)
     cryptoSuccess / didSuccess - the internal loader finished, setting
         the loaded flag (it does not delete the loading promise)
     cryptoFailure / didFailure - the outer catch of the internal loader
         (deletes the loading promise, then rethrows)
     bothFailure   - the catch of _loadBothInternal
     resetToMainThread, cleanup - the public reset methods.
   ====================================================================== -/

/-- The orchestration relevant fields of the WASMLoader singleton. -/
structure LoaderState where
  cryptoLoaded : Bool
  didLoaded : Bool
  loadingCrypto : Bool
  loadingDID : Bool
  loadingBoth : Bool
  useWebWorker : Bool
  startedCryptoLoads : Nat
  startedDIDLoads : Nat
deriving DecidableEq, Repr

/-- The state after the constructor: nothing loaded, nothing in flight,
useWebWorker set to true. -/
def initLoader : LoaderState :=
  { cryptoLoaded := false, didLoaded := false, loadingCrypto := false,
    loadingDID := false, loadingBoth := false, useWebWorker := true,
    startedCryptoLoads := 0, startedDIDLoads := 0 }

/-- One synchronous step of the WASMLoader. -/
inductive LoaderEvent where
  | callLoadCrypto
  | callLoadDID
  | callLoadBoth
  | cryptoWorkerFailure
  | didWorkerFailure
  | cryptoSuccess
  | didSuccess
  | cryptoFailure
  | didFailure
  | bothFailure
  | resetToMainThread
  | cleanup
deriving DecidableEq, Repr

/-- Transition function of the WASMLoader, transcribed step by step from
the source. Note that callLoadBoth checks only the loaded flags of the two
modules (not their loadingPromises entries) and does not register the
internal loads it starts under the crypto and did keys. -/
def loaderStep (st : LoaderState) : LoaderEvent → LoaderState
  | .callLoadCrypto =>
    if st.cryptoLoaded then st
    else if st.loadingCrypto then st
    else { st with loadingCrypto := true,
                   startedCryptoLoads := st.startedCryptoLoads + 1 }
  | .callLoadDID =>
    if st.didLoaded then st
    else if st.loadingDID then st
    else { st with loadingDID := true,
                   startedDIDLoads := st.startedDIDLoads + 1 }
  | .callLoadBoth =>
    if st.cryptoLoaded && st.didLoaded then st
    else if st.loadingBoth then st
    else
      { st with loadingBoth := true
                startedCryptoLoads :=
                  st.startedCryptoLoads + (if st.cryptoLoaded then 0 else 1)
                startedDIDLoads :=
                  st.startedDIDLoads + (if st.didLoaded then 0 else 1) }
  | .cryptoWorkerFailure => { st with useWebWorker := false, loadingCrypto := false }
  | .didWorkerFailure => { st with useWebWorker := false, loadingDID := false }
  | .cryptoSuccess => { st with cryptoLoaded := true }
  | .didSuccess => { st with didLoaded := true }
  | .cryptoFailure => { st with loadingCrypto := false }
  | .didFailure => { st with loadingDID := false }
  | .bothFailure =>
    { st with loadingBoth := false, loadingCrypto := false, loadingDID := false }
  | .resetToMainThread =>
    { st with useWebWorker := false, cryptoLoaded := false, didLoaded := false,
              loadingCrypto := false, loadingDID := false, loadingBoth := false }
  | .cleanup =>
    { st with cryptoLoaded := false, didLoaded := false,
              loadingCrypto := false, loadingDID := false, loadingBoth := false }

/-- Run a list of loader events. -/
def runLoader (st : LoaderState) (events : List LoaderEvent) : LoaderState :=
  events.foldl loaderStep st

/- ======================================================================
   Progress reporting traces (src/lib/wasm-loader.ts). Each function below
   lists, in program order, the (percent, stage) pairs handed to the
   progress callback on one control flow path, with percentages as exact
   rationals. Stage strings that interpolate a changing figure (the
   downloaded megabyte count) are reproduced without the figure.
   ====================================================================== -/

/-- A progress callback invocation: percent and stage description. -/
abbrev ProgressEvent := ℚ × String

/-- Apply a percent transformation to a sub trace, as done when a loader
passes a rescaling lambda as the progress callback of a sub operation. -/
def mapPercent (f : ℚ → ℚ) (tr : List ProgressEvent) : List ProgressEvent :=
  tr.map (fun e => (f e.1, e.2))

/-- The chunk loop of fetchWasmWithProgress: after each chunk of the given
size arrives, if a total content length is known, report the fraction
received so far as a percentage. -/
def chunkProgress (total : Nat) : List Nat → Nat → List ProgressEvent
  | [], _ => []
  | c :: rest, received =>
    (if 0 < total then
      [(((received + c : Nat) : ℚ) / (total : ℚ) * 100, "Downloaded")]
     else []) ++ chunkProgress total rest (received + c)

/-- Progress events of fetchWasmWithProgress: a cache hit reports 100 at
once; otherwise 0 at download start, the chunk fractions, and 100 on
completion. -/
def fetchWasmWithProgressTrace (cacheHit : Bool) (total : Nat)
    (chunks : List Nat) : List ProgressEvent :=
  if cacheHit then [(100, "Loaded from cache")]
  else (0, "Starting download") :: chunkProgress total chunks 0 ++
    [(100, "Download complete")]

/-- Which instantiation path loadWASMFileMainThread takes after the fixed
15 and 20 percent reports. -/
inductive InstantiatePath where
  | cached (cacheHit : Bool) (total : Nat) (chunks : List Nat)
  | streamingFallback (total : Nat) (chunks : List Nat)
  | noStreaming (cacheHit : Bool) (total : Nat) (chunks : List Nat)
deriving Repr

/-- Progress events of loadWASMFileMainThread on a load that reaches the
ready signal. On the cached path the fetch sub progress is rescaled by
20 + p * 0.5; when that path throws, the fetch events already emitted are followed
by the 30 percent streaming fallback report; without streaming support the
fetch sub progress is rescaled by 30 + p * 0.4. -/
def loadWASMFileMainThreadTrace : InstantiatePath → List ProgressEvent
  | .cached hit total chunks =>
    [(15, "Initializing Go runtime"), (20, "Starting WASM download")] ++
      mapPercent (fun p => 20 + p * (1 / 2))
        (fetchWasmWithProgressTrace hit total chunks) ++
      [(70, "Instantiating WASM module"), (80, "Starting Go runtime"),
       (90, "Waiting for ready signal"), (100, "WASM module ready")]
  | .streamingFallback total chunks =>
    [(15, "Initializing Go runtime"), (20, "Starting WASM download")] ++
      mapPercent (fun p => 20 + p * (1 / 2))
        ((0, "Starting download") :: chunkProgress total chunks 0) ++
      [(30, "Fallback to streaming"), (80, "Starting Go runtime"),
       (90, "Waiting for ready signal"), (100, "WASM module ready")]
  | .noStreaming hit total chunks =>
    [(15, "Initializing Go runtime"), (20, "Starting WASM download"),
     (30, "Fallback instantiation")] ++
      mapPercent (fun p => 30 + p * (2 / 5))
        (fetchWasmWithProgressTrace hit total chunks) ++
      [(70, "Instantiating WASM module"), (80, "Starting Go runtime"),
       (90, "Waiting for ready signal"), (100, "WASM module ready")]

/-- Progress events of loadWASMModuleMainThread: 5 while loading
wasm_exec.js, 10 when it is (already) available, then the file load. -/
def loadWASMModuleMainThreadTrace (goAlreadyLoaded : Bool)
    (inst : InstantiatePath) : List ProgressEvent :=
  (5, "Loading wasm_exec.js") ::
    (if goAlreadyLoaded then ((10 : ℚ), "wasm_exec.js already loaded")
     else ((10 : ℚ), "wasm_exec.js loaded")) ::
    loadWASMFileMainThreadTrace inst

/-- The control flow path taken by one successful execution of
_loadCryptoInternal (the DID variant is identical up to names). -/
inductive CryptoLoadPath where
  | workerSuccess
  | workerFallback (goAlreadyLoaded : Bool) (inst : InstantiatePath)
  | mainThread (goAlreadyLoaded : Bool) (inst : InstantiatePath)
deriving Repr

/-- Progress events of one successful _loadCryptoInternal execution. -/
def loadCryptoInternalTrace : CryptoLoadPath → List ProgressEvent
  | .workerSuccess =>
    [(0, "Checking Web Worker support"), (10, "Loading via Web Worker"),
     (100, "Loaded via Web Worker")]
  | .workerFallback go inst =>
    [(0, "Checking Web Worker support"), (10, "Loading via Web Worker"),
     (20, "Fallback to main thread")] ++
      loadWASMModuleMainThreadTrace go inst
  | .mainThread go inst =>
    [(0, "Checking Web Worker support"), (10, "Loading on main thread")] ++
      loadWASMModuleMainThreadTrace go inst

/-- Interleave two lists under a schedule: true takes the next element of
the first list, false of the second; an exhausted side yields to the other. -/
def interleave : List Bool → List ProgressEvent → List ProgressEvent →
    List ProgressEvent
  | [], xs, ys => xs ++ ys
  | _ :: _, [], ys => ys
  | _ :: _, x :: xs, [] => x :: xs
  | true :: sch, x :: xs, ys => x :: interleave sch xs ys
  | false :: sch, xs, y :: ys => y :: interleave sch xs ys

/-- Progress events of a successful _loadBothInternal execution: 0 at the
start, then the two sub loads in parallel, the crypto sub progress rescaled
by 0.3 and prefixed Crypto, the DID sub progress rescaled by 30 + 0.7 p and
prefixed DID, interleaved in event arrival order, then 100. -/
def loadBothInternalTrace (sched : List Bool)
    (cryptoSub didSub : List ProgressEvent) : List ProgressEvent :=
  (0, "Starting parallel load") ::
    interleave sched
      (mapPercent (fun p => p * (3 / 10))
        (cryptoSub.map (fun e => (e.1, "Crypto: " ++ e.2))))
      (mapPercent (fun p => 30 + p * (7 / 10))
        (didSub.map (fun e => (e.1, "DID: " ++ e.2)))) ++
    [(100, "Parallel loading completed")]

/-- Adjacent pairs of a percent sequence are in non decreasing order. -/
def nondecreasingB : List ℚ → Bool
  | a :: b :: rest => decide (a ≤ b) && nondecreasingB (b :: rest)
  | _ => true

/-- A percent sequence is non decreasing. -/
def Nondecreasing (l : List ℚ) : Prop :=
  nondecreasingB l = true

/-- Every percent of the list lies in the interval from 0 to 100. -/
def InPercentRange (l : List ℚ) : Prop :=
  ∀ p ∈ l, 0 ≤ p ∧ p ≤ 100

/-- The declared content length, when present, bounds the bytes received:
sum of the chunk sizes at most the total. -/
def chunksOk (total : Nat) (chunks : List Nat) : Prop :=
  0 < total → chunks.sum ≤ total

/-- Well formed download parameters of an instantiation path. -/
def instOk : InstantiatePath → Prop
  | .cached _ total chunks => chunksOk total chunks
  | .streamingFallback total chunks => chunksOk total chunks
  | .noStreaming _ total chunks => chunksOk total chunks

/-- Well formed download parameters of a crypto load path. -/
def cryptoPathOk : CryptoLoadPath → Prop
  | .workerSuccess => True
  | .workerFallback _ inst => instOk inst
  | .mainThread _ inst => instOk inst

instance (l : List ℚ) : Decidable (Nondecreasing l) :=
  inferInstanceAs (Decidable (nondecreasingB l = true))

/- ======================================================================
   Theorems.
   ====================================================================== -/

/-- A lowercase hex digit: 0-9 or a-f. -/
def isLowerHexDigit (c : Char) : Bool :=
  (48 ≤ c.toNat && c.toNat ≤ 57) || (97 ≤ c.toNat && c.toNat ≤ 102)

set_option maxRecDepth 4000 in
lemma byteToHex_ok : ∀ b : Nat, b < 256 →
    (byteToHex b).data.length = 2 ∧
    hexPairsToBytes (byteToHex b).data = [b] ∧
    (byteToHex b).data.all isLowerHexDigit = true := by
  decide

lemma byteToHex_pair (b : Nat) (hb : b < 256) :
    ∃ c1 c2, (byteToHex b).data = [c1, c2] ∧ (parseIntHexPair c1 c2).getD 0 = b ∧
      isLowerHexDigit c2 = true := by
  obtain ⟨hlen, hparse, hall⟩ := byteToHex_ok b hb
  match hdata : (byteToHex b).data with
  | [c1, c2] =>
    refine ⟨c1, c2, rfl, ?_, ?_⟩
    · rw [hdata] at hparse
      simpa [hexPairsToBytes] using hparse
    · rw [hdata] at hall
      simp [List.all_cons] at hall
      exact hall.2
  | [] => rw [hdata] at hlen; simp at hlen
  | [_] => rw [hdata] at hlen; simp at hlen
  | _ :: _ :: _ :: _ => rw [hdata] at hlen; simp at hlen

lemma hexPairsToBytes_flatten :
    ∀ bytes : List Nat, (∀ b ∈ bytes, b < 256) →
    hexPairsToBytes ((bytes.map (fun b => (byteToHex b).data)).flatten) = bytes := by
  intro bytes
  induction bytes with
  | nil => intro _; rfl
  | cons b rest ih =>
    intro h
    obtain ⟨c1, c2, hdata, hval, _⟩ := byteToHex_pair b (h b (by simp))
    have hrest : ∀ x ∈ rest, x < 256 := fun x hx => h x (by simp [hx])
    simp only [List.map_cons, List.flatten_cons, hdata, List.cons_append,
      List.nil_append]
    rw [hexPairsToBytes, hval, ih hrest]

/-- C9. For every byte array, hex encoding with uint8ArrayToHex and decoding
with hexToUint8Array is the identity, and every byte is rendered as exactly
two lowercase hex digit characters. The helper pair in CryptoWASM
(src/lib/wasm-worker-client.ts) is embedded here; the private copies in
WASMLoader (src/lib/wasm-loader.ts) have identical bodies. -/
theorem c9_hex_roundtrip (bytes : List Nat) (h : ∀ b ∈ bytes, b < 256) :
    hexToUint8Array (uint8ArrayToHex bytes) = bytes ∧
    ∀ b ∈ bytes, (byteToHex b).data.length = 2 ∧
      (byteToHex b).data.all isLowerHexDigit = true := by
  constructor
  · show hexPairsToBytes (stripHexPrefixChars (uint8ArrayToHex bytes).data) = bytes
    have hdata : (uint8ArrayToHex bytes).data =
        (bytes.map (fun b => (byteToHex b).data)).flatten := rfl
    rw [hdata]
    match bytes, h with
    | [], _ => rfl
    | b :: rest, h =>
      obtain ⟨c1, c2, hpair, _, hlower⟩ := byteToHex_pair b (h b (by simp))
      have hx : ¬ (c1 = '0' ∧ c2 = 'x') := by
        rintro ⟨_, rfl⟩
        simp [isLowerHexDigit] at hlower
      simp only [List.map_cons, List.flatten_cons, hpair, List.cons_append]
      rw [stripHexPrefixChars, if_neg hx]
      have := hexPairsToBytes_flatten (b :: rest) h
      simpa [hpair] using this
  · intro b hb
    exact ⟨(byteToHex_ok b (h b hb)).1, (byteToHex_ok b (h b hb)).2.2⟩

/-- Witness for C9 at a concrete byte array. -/
theorem c9_hex_roundtrip_witness :
    (∀ b ∈ [0, 15, 16, 171, 255], b < 256) ∧
    (hexToUint8Array (uint8ArrayToHex [0, 15, 16, 171, 255]) = [0, 15, 16, 171, 255] ∧
     ∀ b ∈ [0, 15, 16, 171, 255], (byteToHex b).data.length = 2 ∧
       (byteToHex b).data.all isLowerHexDigit = true) :=
  ⟨by decide, c9_hex_roundtrip [0, 15, 16, 171, 255] (by decide)⟩

/-- C10. CryptoWASM.signMessage rejects with a descriptive error, without
any call to the WASM module being made, whenever the private key is empty,
the message is empty, the hex encoding of the private key fails isValidHex,
or the message exceeds 1 MiB; formally the validation prefix returns a
rejection rather than reaching the module call. -/
theorem c10_sign_message_validation (privateKey message : List Nat)
    (h : privateKey = [] ∨ message = [] ∨
         isValidHex (uint8ArrayToHex privateKey) = false ∨
         1024 * 1024 < message.length) :
    ∃ msg, signMessageValidate privateKey message = SignValidation.rejected msg := by
  unfold signMessageValidate
  split_ifs with h1 h2 h3 h4
  · exact ⟨_, rfl⟩
  · exact ⟨_, rfl⟩
  · exact ⟨_, rfl⟩
  · exact ⟨_, rfl⟩
  · exfalso
    rcases h with h | h | h | h
    · exact h1 (by simp [h])
    · exact h2 (by simp [h])
    · exact h3 h
    · exact h4 h


/-- Witness for C10: the empty private key is rejected. -/
theorem c10_sign_message_validation_witness :
    ∃ msg, signMessageValidate [] [1] = SignValidation.rejected msg :=
  c10_sign_message_validation [] [1] (Or.inl rfl)

lemma loaderStep_callCrypto_inflight (st : LoaderState) (h : st.loadingCrypto = true) :
    loaderStep st LoaderEvent.callLoadCrypto = st := by
  unfold loaderStep
  by_cases hl : st.cryptoLoaded <;> simp [hl, h]

lemma runLoader_replicate_callCrypto (n : Nat) (st : LoaderState)
    (h : st.loadingCrypto = true) :
    runLoader st (List.replicate n LoaderEvent.callLoadCrypto) = st := by
  induction n generalizing st with
  | zero => rfl
  | succ n ih =>
    rw [List.replicate_succ]
    show runLoader (loaderStep st LoaderEvent.callLoadCrypto) _ = st
    rw [loaderStep_callCrypto_inflight st h]
    exact ih st h

/-- C1. The per module deduplication works when all concurrent callers go
through loadCrypto (any number of concurrent calls from a cold loader start
exactly one internal load, hence one fetch and one instantiation), but the
combined loadBoth path breaks it: _loadBothInternal starts
_loadCryptoInternal directly, neither consulting nor registering the
loadingPromises.crypto entry, so a loadCrypto call concurrent with a
loadBoth call starts two independent loads of the crypto module, in either
arrival order. This refutes the claimed invariant on the combined path. -/
theorem c1_load_dedup_broken_by_loadboth :
    (∀ n : Nat, (runLoader initLoader
        (List.replicate (n + 1) LoaderEvent.callLoadCrypto)).startedCryptoLoads = 1) ∧
    (runLoader initLoader
        [LoaderEvent.callLoadCrypto, LoaderEvent.callLoadBoth]).startedCryptoLoads = 2 ∧
    (runLoader initLoader
        [LoaderEvent.callLoadBoth, LoaderEvent.callLoadCrypto]).startedCryptoLoads = 2 := by
  refine ⟨?_, by decide, by decide⟩
  intro n
  rw [List.replicate_succ]
  show (runLoader (loaderStep initLoader LoaderEvent.callLoadCrypto)
      (List.replicate n LoaderEvent.callLoadCrypto)).startedCryptoLoads = 1
  rw [runLoader_replicate_callCrypto n _ (by decide)]
  decide

/-- C4. The execution mode starts as isolated preferred (the constructor
sets useWebWorker to true), every isolated mode failure event and the
explicit reset set it to false, and no loader operation ever sets it back
to true: from a state with useWebWorker false, every event leaves it
false. -/
theorem c4_execution_mode_monotone :
    initLoader.useWebWorker = true ∧
    (∀ st : LoaderState,
      (loaderStep st LoaderEvent.cryptoWorkerFailure).useWebWorker = false ∧
      (loaderStep st LoaderEvent.didWorkerFailure).useWebWorker = false ∧
      (loaderStep st LoaderEvent.resetToMainThread).useWebWorker = false) ∧
    (∀ (st : LoaderState) (e : LoaderEvent), st.useWebWorker = false →
      (loaderStep st e).useWebWorker = false) := by
  refine ⟨rfl, fun st => ⟨rfl, rfl, rfl⟩, ?_⟩
  intro st e h
  cases e <;> simp only [loaderStep] <;> first
    | (split_ifs <;> simp [h])
    | simp [h]

/-- Witness for C4: a downgraded loader stays downgraded across an event. -/
theorem c4_execution_mode_monotone_witness :
    (loaderStep { initLoader with useWebWorker := false }
      LoaderEvent.cleanup).useWebWorker = false :=
  c4_execution_mode_monotone.2.2 { initLoader with useWebWorker := false }
    LoaderEvent.cleanup rfl

/-- C8 counterexample: after a successful load (callLoadCrypto followed by
cryptoSuccess) the module is Ready yet the in flight entry
loadingPromises.crypto is still present — the source deletes the entry only
in the failure handlers, so the claim that it is removed on successful
completion is false. -/
theorem c8_counterexample :
    (runLoader initLoader
        [LoaderEvent.callLoadCrypto, LoaderEvent.cryptoSuccess]).cryptoLoaded = true ∧
    (runLoader initLoader
        [LoaderEvent.callLoadCrypto, LoaderEvent.cryptoSuccess]).loadingCrypto = true := by
  decide

/-- C8 amended. The in flight entry is removed whenever a load fails (the
outer catch handlers of the internal loaders and of _loadBothInternal), so
a later call starts a fresh attempt; on success the entry is left in the
map, but the loaded flag makes every later load call return immediately, so
the stale entry is never observed. -/
theorem c8_inflight_entry_lifecycle :
    (∀ st : LoaderState,
      (loaderStep st LoaderEvent.cryptoFailure).loadingCrypto = false ∧
      (loaderStep st LoaderEvent.didFailure).loadingDID = false ∧
      (loaderStep st LoaderEvent.bothFailure).loadingBoth = false) ∧
    (∀ st : LoaderState, st.cryptoLoaded = false →
      (loaderStep (loaderStep st LoaderEvent.cryptoFailure)
        LoaderEvent.callLoadCrypto).startedCryptoLoads = st.startedCryptoLoads + 1) ∧
    (∀ st : LoaderState, st.cryptoLoaded = true →
      loaderStep st LoaderEvent.callLoadCrypto = st) := by
  refine ⟨fun st => ⟨rfl, rfl, rfl⟩, ?_, ?_⟩
  · intro st h
    simp [loaderStep, h]
  · intro st h
    simp [loaderStep, h]

/-- Witness for C8: a failed load frees the entry and the next call starts
a fresh attempt. -/
theorem c8_inflight_entry_lifecycle_witness :
    (loaderStep (loaderStep initLoader LoaderEvent.cryptoFailure)
      LoaderEvent.callLoadCrypto).startedCryptoLoads
      = initLoader.startedCryptoLoads + 1 :=
  c8_inflight_entry_lifecycle.2.1 initLoader rfl

/-- The ids that have been settled, in settlement order. -/
def settledIds (st : ChannelState) : List Nat :=
  st.settlements.map Prod.fst

lemma lookup_isSome_iff {l : List (Nat × Nat)} {k : Nat} :
    (l.lookup k).isSome = true ↔ k ∈ l.map Prod.fst := by
  induction l with
  | nil => simp [List.lookup]
  | cons p rest ih =>
    rcases p with ⟨a, b⟩
    by_cases h : k = a
    · subst h
      simp [List.lookup]
    · have hb : (k == a) = false := beq_eq_false_iff_ne.mpr h
      simp [List.lookup, hb, h, ih]

lemma mem_removeKey {l : List (Nat × Nat)} {k i : Nat} :
    i ∈ (removeKey k l).map Prod.fst ↔ i ∈ l.map Prod.fst ∧ i ≠ k := by
  simp only [removeKey, List.mem_map, List.mem_filter, bne_iff_ne, ne_eq]
  constructor
  · rintro ⟨p, ⟨hp, hne⟩, rfl⟩
    exact ⟨⟨p, hp, rfl⟩, hne⟩
  · rintro ⟨⟨p, hp, rfl⟩, hne⟩
    exact ⟨p, ⟨hp, hne⟩, rfl⟩

/-- Channel invariant: settled ids are pairwise distinct, every tracked id
is below the counter, and no id is both pending and settled. -/
def ChInv (st : ChannelState) : Prop :=
  (settledIds st).Nodup ∧
  (∀ i ∈ st.pending.map Prod.fst, i < st.messageId) ∧
  (∀ i ∈ settledIds st, i < st.messageId) ∧
  (∀ i ∈ st.pending.map Prod.fst, i ∉ settledIds st)

lemma chInv_settle (st : ChannelState) (k : Nat) (s : Settlement)
    (h : ChInv st) (hk : k ∈ st.pending.map Prod.fst) :
    ChInv { st with pending := removeKey k st.pending,
                    settlements := st.settlements ++ [(k, s)] } := by
  obtain ⟨hnd, hpb, hsb, hdisj⟩ := h
  refine ⟨?_, ?_, ?_, ?_⟩
  · simp only [settledIds, List.map_append, List.map_cons, List.map_nil]
    rw [List.nodup_append]
    refine ⟨hnd, List.nodup_singleton _, ?_⟩
    intro a ha hb
    simp only [List.mem_singleton] at hb
    subst hb
    exact hdisj a hk ha
  · intro i hi
    exact hpb i (mem_removeKey.mp hi).1
  · intro i hi
    simp only [settledIds, List.map_append, List.map_cons, List.map_nil,
      List.mem_append, List.mem_singleton] at hi
    rcases hi with hi | rfl
    · exact hsb i hi
    · exact hpb i hk
  · intro i hi
    obtain ⟨hi1, hi2⟩ := mem_removeKey.mp hi
    simp only [settledIds, List.map_append, List.map_cons, List.map_nil,
      List.mem_append, List.mem_singleton]
    rintro (hc | rfl)
    · exact hdisj i hi1 hc
    · exact hi2 rfl

lemma chInv_step (st : ChannelState) (e : ChEvent) (h : ChInv st) :
    ChInv (procEvent st e) := by
  cases e with
  | send now =>
    obtain ⟨hnd, hpb, hsb, hdisj⟩ := h
    refine ⟨hnd, ?_, ?_, ?_⟩
    · intro i hi
      simp only [procEvent, List.map_cons, List.mem_cons] at hi
      rcases hi with rfl | hi
      · exact Nat.lt_succ_self _
      · exact Nat.lt_succ_of_lt (hpb i hi)
    · intro i hi
      exact Nat.lt_succ_of_lt (hsb i hi)
    · intro i hi
      simp only [procEvent, List.map_cons, List.mem_cons] at hi
      rcases hi with rfl | hi
      · intro hc
        exact absurd (hsb _ hc) (lt_irrefl _)
      · exact hdisj i hi
  | response rid success =>
    by_cases hp : hasPending st rid
    · have hgoal := chInv_settle st rid (Settlement.result success) h
        (lookup_isSome_iff.mp hp)
      simpa only [procEvent, hp, if_true] using hgoal
    · simpa only [procEvent, hp, if_false] using h
  | timerFire tid =>
    by_cases hp : hasPending st tid
    · have hgoal := chInv_settle st tid Settlement.timeout h
        (lookup_isSome_iff.mp hp)
      simpa only [procEvent, hp, if_true] using hgoal
    · simpa only [procEvent, hp, if_false] using h
  | terminate =>
    obtain ⟨hnd, hpb, hsb, hdisj⟩ := h
    refine ⟨hnd, ?_, hsb, ?_⟩ <;> simp [procEvent]

lemma chInv_run (events : List ChEvent) : ChInv (runChannel initChannel events) := by
  have hinit : ChInv initChannel := by
    refine ⟨List.nodup_nil, ?_, ?_, ?_⟩ <;> simp [initChannel, settledIds]
  suffices h : ∀ (evs : List ChEvent) (st : ChannelState), ChInv st →
      ChInv (runChannel st evs) from h events initChannel hinit
  intro evs
  induction evs with
  | nil => exact fun st h => h
  | cons e rest ih => exact fun st h => ih (procEvent st e) (chInv_step st e h)

/-- C3. Request correlation and timeout behaviour of the channel: the per
request budget is 60000 milliseconds and sending registers the fresh id
with exactly that deadline; a pending request whose timer fires is rejected
with the timeout settlement and its correlation slot is freed; a response
whose id matches no pending entry (late after a timeout, duplicate, or
unknown) leaves the state completely unchanged, raising nothing; a response
whose id is pending settles exactly that caller and frees exactly that
slot; and across any event sequence from the initial state every id is
settled at most once (together with the timer guarantee this is the exactly
once settlement of each pending request). -/
theorem c3_request_correlation :
    WORKER_MESSAGE_TIMEOUT_MS = 60000 ∧
    (∀ (events : List ChEvent) (id : Nat),
      ((runChannel initChannel events).settlements.map Prod.fst).count id ≤ 1) ∧
    (∀ (st : ChannelState) (now : Nat),
      (procEvent st (ChEvent.send now)).pending.lookup st.messageId
        = some (now + WORKER_MESSAGE_TIMEOUT_MS)) ∧
    (∀ (st : ChannelState) (id d : Nat), st.pending.lookup id = some d →
      procEvent st (ChEvent.timerFire id) =
        { st with pending := removeKey id st.pending,
                  settlements := st.settlements ++ [(id, Settlement.timeout)] }) ∧
    (∀ (st : ChannelState) (id : Nat) (success : Bool),
      st.pending.lookup id = none →
      procEvent st (ChEvent.response id success) = st) ∧
    (∀ (st : ChannelState) (id : Nat) (success : Bool) (d : Nat),
      st.pending.lookup id = some d →
      procEvent st (ChEvent.response id success) =
        { st with pending := removeKey id st.pending,
                  settlements := st.settlements ++ [(id, Settlement.result success)] }) := by
  refine ⟨rfl, ?_, ?_, ?_, ?_, ?_⟩
  · intro events id
    exact List.nodup_iff_count_le_one.mp (chInv_run events).1 id
  · intro st now
    simp [procEvent, List.lookup]
  · intro st id d h
    simp [procEvent, hasPending, h]
  · intro st id success h
    simp [procEvent, hasPending, h]
  · intro st id success d h
    simp [procEvent, hasPending, h]

/-- Witness for C3: a pending request with id 0 whose timer fires is
rejected with the timeout settlement and its slot is freed. -/
theorem c3_request_correlation_witness :
    procEvent ⟨1, [(0, 60000)], [], true⟩ (ChEvent.timerFire 0)
      = ⟨1, [], [(0, Settlement.timeout)], true⟩ := by
  have h := c3_request_correlation.2.2.2.1 ⟨1, [(0, 60000)], [], true⟩ 0 60000 rfl
  exact h.trans (by decide)

/-- C2 counterexample: a request is sent (id 0 is pending), terminate runs,
and afterwards the pending map is empty while the settlement log is still
empty — the caller was neither resolved nor rejected — and even the later
firing of its 60 second timer is a no-op, so the promise of request 0 stays
unsettled forever. This refutes the claim that terminate rejects every
pending request. -/
theorem c2_terminate_counterexample :
    (runChannel initChannel [ChEvent.send 0, ChEvent.terminate]).pending = [] ∧
    (runChannel initChannel [ChEvent.send 0, ChEvent.terminate]).settlements = [] ∧
    runChannel initChannel [ChEvent.send 0, ChEvent.terminate, ChEvent.timerFire 0]
      = runChannel initChannel [ChEvent.send 0, ChEvent.terminate] := by
  decide

/-- C2 amended. terminate clears the pending request map without settling
anything: after terminate the map is empty, the settlement log is exactly
what it was before, and any later timer firing is a no-op, so a request
outstanding at termination is never resolved nor rejected (its caller
hangs); requests are settled only by a matching response or by their own
timeout while the channel is alive. -/
theorem c2_terminate_drops_pending :
    (∀ st : ChannelState,
      (procEvent st ChEvent.terminate).pending = [] ∧
      (procEvent st ChEvent.terminate).settlements = st.settlements) ∧
    (∀ (st : ChannelState) (id : Nat),
      procEvent (procEvent st ChEvent.terminate) (ChEvent.timerFire id)
        = procEvent st ChEvent.terminate) := by
  refine ⟨fun st => ⟨rfl, rfl⟩, ?_⟩
  intro st id
  rfl

/-- C5 counterexample: a module function whose textual result is not valid
JSON (here the text not-json on the main thread path) makes safeWasmCall
throw the wrapped operation error instead of returning the raw text to the
caller — JSON.parse sits inside the try block whose catch rethrows, so the
claimed parse-failure passthrough never reaches the caller of the helper. -/
theorem c5_counterexample :
    safeWasmCall false true (Except.error "unused") (Except.ok "not-json")
      "Sign message" = SafeCallOutcome.failedWith "Sign message" := rfl

/-- C5 amended. The opportunistic parse with raw text fallback exists only
on the worker side: executeWASMFunction returns the raw string unchanged
when JSON.parse fails. The function invocation helper safeWasmCall, in
contrast, always applies JSON.parse to the final text and raises the
wrapped operation error when that parse fails — on the main thread path
and equally on the worker path when the worker handed back raw text. -/
theorem c5_raw_text_parse_behavior :
    ∀ (s functionName operation : String)
      (workerCall : Except String WorkerValue)
      (mainCall : Except String String),
      jsonParse s = none →
      executeWASMFunction true functionName (WasmFnResult.strVal s)
        = WorkerExecOutcome.success (WorkerValue.raw s) ∧
      safeWasmCall false true workerCall (Except.ok s) operation
        = SafeCallOutcome.failedWith operation ∧
      safeWasmCall true true (Except.ok (WorkerValue.raw s)) mainCall operation
        = SafeCallOutcome.failedWith operation := by
  intro s fn op wc mc h
  refine ⟨?_, ?_, ?_⟩ <;> simp [executeWASMFunction, safeWasmCall, h]

/-- Witness for C5, at the concrete non JSON result text not-json. -/
theorem c5_raw_text_parse_behavior_witness :
    jsonParse "not-json" = none ∧
    (executeWASMFunction true "signMessage" (WasmFnResult.strVal "not-json")
        = WorkerExecOutcome.success (WorkerValue.raw "not-json") ∧
     safeWasmCall false true (Except.error "e") (Except.ok "not-json")
        "Sign message" = SafeCallOutcome.failedWith "Sign message" ∧
     safeWasmCall true true (Except.ok (WorkerValue.raw "not-json"))
        (Except.error "e") "Sign message"
        = SafeCallOutcome.failedWith "Sign message") :=
  ⟨rfl, c5_raw_text_parse_behavior "not-json" "signMessage" "Sign message"
    (Except.error "e") (Except.error "e") rfl⟩

lemma cacheMatch_cacheDelete (c : WasmCache) (k key : String) :
    cacheMatch (cacheDelete c k) key = if key = k then none else cacheMatch c key := by
  induction c with
  | nil => simp [cacheMatch, cacheDelete]
  | cons p rest ih =>
    rcases p with ⟨a, v⟩
    by_cases hak : a = k
    · subst hak
      by_cases hka : key = a
      · subst hka
        simpa [cacheMatch, cacheDelete, List.filter_cons] using ih
      · simp only [cacheMatch, cacheDelete, List.filter_cons] at ih ⊢
        have hb : (a != a) = false := by simp
        have hk2 : (key == a) = false := beq_eq_false_iff_ne.mpr hka
        simp [hb, hk2, List.lookup, ih, hka]
    · have hb : (a != k) = true := bne_iff_ne.mpr hak
      by_cases hka : key = a
      · subst hka
        have hkk : (key = k) = False := by
          simp [hak]
        simp [cacheMatch, cacheDelete, List.filter_cons, hb, List.lookup, hak]
      · have hk2 : (key == a) = false := beq_eq_false_iff_ne.mpr hka
        simp only [cacheMatch, cacheDelete, List.filter_cons] at ih ⊢
        simp [hb, hk2, List.lookup, ih]

/-- C7. Cache expiry in getCachedWasm: when the lookup (compressed variant
first, then uncompressed) finds a stored response carrying an x-cache-time
of t, then if its age now - t is at least CACHE_EXPIRY (7 days in
milliseconds) the lookup reports a miss and afterwards neither the
compressed nor the uncompressed key is present in the cache, while if the
age is below the window the stored bytes are served and the cache is left
untouched. -/
theorem c7_cache_expiry (cache : WasmCache) (wasmPath : String) (e : CacheEntry)
    (t now : Nat)
    (hfound : cacheMatch cache (getCacheKey wasmPath true) = some e ∨
      (cacheMatch cache (getCacheKey wasmPath true) = none ∧
       cacheMatch cache (getCacheKey wasmPath false) = some e))
    (ht : e.cacheTime = some t) :
    ((CACHE_EXPIRY : Int) ≤ (now : Int) - (t : Int) →
       (getCachedWasm now cache wasmPath).1 = none ∧
       cacheMatch (getCachedWasm now cache wasmPath).2
         (getCacheKey wasmPath true) = none ∧
       cacheMatch (getCachedWasm now cache wasmPath).2
         (getCacheKey wasmPath false) = none) ∧
    ((now : Int) - (t : Int) < (CACHE_EXPIRY : Int) →
       (getCachedWasm now cache wasmPath).1 = some e.bytes ∧
       (getCachedWasm now cache wasmPath).2 = cache) := by
  have hred : getCachedWasm now cache wasmPath =
      (if (now : Int) - (t : Int) < (CACHE_EXPIRY : Int) then (some e.bytes, cache)
       else (none,
         cacheDelete (cacheDelete cache (getCacheKey wasmPath true))
           (getCacheKey wasmPath false))) := by
    unfold getCachedWasm
    rcases hfound with hc | ⟨hc, hn⟩
    · simp only [hc, ht]
    · simp only [hc, hn, ht]
  constructor
  · intro hage
    have hlt : ¬ ((now : Int) - (t : Int) < (CACHE_EXPIRY : Int)) := not_lt.mpr hage
    rw [hred, if_neg hlt]
    refine ⟨rfl, ?_, ?_⟩
    · rw [cacheMatch_cacheDelete]
      by_cases hk : getCacheKey wasmPath true = getCacheKey wasmPath false
      · rw [if_pos hk]
      · rw [if_neg hk, cacheMatch_cacheDelete, if_pos rfl]
    · rw [cacheMatch_cacheDelete, if_pos rfl]
  · intro hage
    rw [hred, if_pos hage]
    exact ⟨rfl, rfl⟩

/-- Witness for C7: one entry written at time 0; at age exactly 7 days it
is a miss and both keys are purged, one millisecond earlier it is served. -/
theorem c7_cache_expiry_witness :
    ((getCachedWasm 604800000
        [(getCacheKey "/crypto.wasm" false, { bytes := [1, 2, 3], cacheTime := some 0 })]
        "/crypto.wasm").1 = none ∧
     cacheMatch (getCachedWasm 604800000
        [(getCacheKey "/crypto.wasm" false, { bytes := [1, 2, 3], cacheTime := some 0 })]
        "/crypto.wasm").2 (getCacheKey "/crypto.wasm" true) = none ∧
     cacheMatch (getCachedWasm 604800000
        [(getCacheKey "/crypto.wasm" false, { bytes := [1, 2, 3], cacheTime := some 0 })]
        "/crypto.wasm").2 (getCacheKey "/crypto.wasm" false) = none) ∧
    ((getCachedWasm 604799999
        [(getCacheKey "/crypto.wasm" false, { bytes := [1, 2, 3], cacheTime := some 0 })]
        "/crypto.wasm").1 = some [1, 2, 3] ∧
     (getCachedWasm 604799999
        [(getCacheKey "/crypto.wasm" false, { bytes := [1, 2, 3], cacheTime := some 0 })]
        "/crypto.wasm").2 =
       [(getCacheKey "/crypto.wasm" false, { bytes := [1, 2, 3], cacheTime := some 0 })]) := by
  constructor
  · exact (c7_cache_expiry
      [(getCacheKey "/crypto.wasm" false, { bytes := [1, 2, 3], cacheTime := some 0 })]
      "/crypto.wasm" { bytes := [1, 2, 3], cacheTime := some 0 } 0 604800000
      (Or.inr ⟨by decide, by decide⟩) rfl).1 (by decide)
  · exact (c7_cache_expiry
      [(getCacheKey "/crypto.wasm" false, { bytes := [1, 2, 3], cacheTime := some 0 })]
      "/crypto.wasm" { bytes := [1, 2, 3], cacheTime := some 0 } 0 604799999
      (Or.inr ⟨by decide, by decide⟩) rfl).2 (by decide)

instance (l : List ℚ) : Decidable (InPercentRange l) :=
  inferInstanceAs (Decidable (∀ p ∈ l, 0 ≤ p ∧ p ≤ 100))

lemma inRange_append {l1 l2 : List ℚ} (h1 : InPercentRange l1)
    (h2 : InPercentRange l2) : InPercentRange (l1 ++ l2) := by
  intro p hp
  rcases List.mem_append.mp hp with h | h
  · exact h1 p h
  · exact h2 p h

lemma affine_percent_bound (a b p : ℚ) (h0 : 0 ≤ p) (h1 : p ≤ 100)
    (ha : 0 ≤ a) (hb : 0 ≤ b) (hab : a + 100 * b ≤ 100) :
    0 ≤ a + p * b ∧ a + p * b ≤ 100 := by
  constructor
  · positivity
  · nlinarith

lemma mapPercent_fst (f : ℚ → ℚ) (tr : List ProgressEvent) :
    (mapPercent f tr).map Prod.fst = (tr.map Prod.fst).map f := by
  simp [mapPercent, List.map_map]

lemma inRange_mapPercent (a b : ℚ) (ha : 0 ≤ a) (hb : 0 ≤ b)
    (hab : a + 100 * b ≤ 100) (tr : List ProgressEvent)
    (htr : InPercentRange (tr.map Prod.fst)) :
    InPercentRange ((mapPercent (fun p => a + p * b) tr).map Prod.fst) := by
  intro q hq
  rw [mapPercent_fst] at hq
  obtain ⟨p, hp, rfl⟩ := List.mem_map.mp hq
  obtain ⟨h0, h1⟩ := htr p hp
  exact affine_percent_bound a b p h0 h1 ha hb hab

lemma chunkProgress_bounds (total : Nat) :
    ∀ (chunks : List Nat) (received : Nat),
      (0 < total → received + chunks.sum ≤ total) →
      InPercentRange ((chunkProgress total chunks received).map Prod.fst) := by
  intro chunks
  induction chunks with
  | nil =>
    intro received _ p hp
    simp [chunkProgress] at hp
  | cons c rest ih =>
    intro received hsum p hp
    simp only [chunkProgress, List.map_append, List.mem_append] at hp
    rcases hp with hp | hp
    · by_cases ht : 0 < total
      · simp only [ht, if_true, List.map_cons, List.map_nil, List.mem_cons,
          List.not_mem_nil, or_false] at hp
        subst hp
        have htq : (0 : ℚ) < (total : ℚ) := by exact_mod_cast ht
        have hle : ((received + c : Nat) : ℚ) ≤ (total : ℚ) := by
          have hn : received + c ≤ total := by
            have := hsum ht
            simp only [List.sum_cons] at this
            omega
          exact_mod_cast hn
        refine ⟨by positivity, ?_⟩
        have hdiv : ((received + c : Nat) : ℚ) / (total : ℚ) ≤ 1 :=
          (div_le_one htq).mpr hle
        calc ((received + c : Nat) : ℚ) / (total : ℚ) * 100
            ≤ 1 * 100 := mul_le_mul_of_nonneg_right hdiv (by norm_num)
          _ = 100 := by norm_num
      · simp [ht] at hp
    · refine ih (received + c) ?_ p hp
      intro ht
      have := hsum ht
      simp only [List.sum_cons] at this
      omega

lemma fetch_trace_bounds (cacheHit : Bool) (total : Nat) (chunks : List Nat)
    (h : chunksOk total chunks) :
    InPercentRange ((fetchWasmWithProgressTrace cacheHit total chunks).map Prod.fst) := by
  cases cacheHit with
  | true =>
    intro p hp
    simp [fetchWasmWithProgressTrace] at hp
    subst hp
    norm_num
  | false =>
    intro p hp
    simp only [fetchWasmWithProgressTrace, Bool.false_eq_true, if_false,
      List.map_cons, List.map_append, List.mem_cons, List.mem_append,
      List.map_nil, List.not_mem_nil, or_false] at hp
    rcases hp with (rfl | hp) | rfl
    · norm_num
    · exact chunkProgress_bounds total chunks 0 (by intro ht; simpa using h ht) p hp
    · norm_num

lemma fetch_interrupted_bounds (total : Nat) (chunks : List Nat)
    (h : chunksOk total chunks) :
    InPercentRange (((0, "Starting download") ::
      chunkProgress total chunks 0).map Prod.fst) := by
  intro p hp
  simp only [List.map_cons, List.mem_cons] at hp
  rcases hp with rfl | hp
  · norm_num
  · exact chunkProgress_bounds total chunks 0 (by intro ht; simpa using h ht) p hp

lemma file_trace_bounds (inst : InstantiatePath) (h : instOk inst) :
    InPercentRange ((loadWASMFileMainThreadTrace inst).map Prod.fst) := by
  cases inst with
  | cached hit total chunks =>
    simp only [loadWASMFileMainThreadTrace, List.map_append]
    refine inRange_append (inRange_append (by decide) ?_) (by decide)
    exact inRange_mapPercent 20 (1 / 2) (by norm_num) (by norm_num) (by norm_num)
      _ (fetch_trace_bounds hit total chunks h)
  | streamingFallback total chunks =>
    simp only [loadWASMFileMainThreadTrace, List.map_append]
    refine inRange_append (inRange_append (by decide) ?_) (by decide)
    exact inRange_mapPercent 20 (1 / 2) (by norm_num) (by norm_num) (by norm_num)
      _ (fetch_interrupted_bounds total chunks h)
  | noStreaming hit total chunks =>
    simp only [loadWASMFileMainThreadTrace, List.map_append]
    refine inRange_append (inRange_append (by decide) ?_) (by decide)
    exact inRange_mapPercent 30 (2 / 5) (by norm_num) (by norm_num) (by norm_num)
      _ (fetch_trace_bounds hit total chunks h)

lemma file_trace_last (inst : InstantiatePath) :
    ((loadWASMFileMainThreadTrace inst).map Prod.fst).getLast? = some 100 := by
  cases inst <;>
    (simp only [loadWASMFileMainThreadTrace, List.map_append]
     rw [List.getLast?_append_of_ne_nil _ (by simp)]
     rfl)

lemma file_trace_ne_nil (inst : InstantiatePath) :
    (loadWASMFileMainThreadTrace inst).map Prod.fst ≠ [] := by
  intro hnil
  have := file_trace_last inst
  rw [hnil] at this
  simp at this

lemma module_trace_bounds (go : Bool) (inst : InstantiatePath) (h : instOk inst) :
    InPercentRange ((loadWASMModuleMainThreadTrace go inst).map Prod.fst) := by
  cases go <;>
    (intro p hp
     simp only [loadWASMModuleMainThreadTrace, Bool.false_eq_true, if_false, if_true,
       List.map_cons, List.mem_cons] at hp
     rcases hp with rfl | rfl | hp
     · norm_num
     · norm_num
     · exact file_trace_bounds inst h p hp)

lemma module_trace_last (go : Bool) (inst : InstantiatePath) :
    ((loadWASMModuleMainThreadTrace go inst).map Prod.fst).getLast? = some 100 := by
  have hsplit : loadWASMModuleMainThreadTrace go inst =
      [((5 : ℚ), "Loading wasm_exec.js"),
       (if go then ((10 : ℚ), "wasm_exec.js already loaded")
        else ((10 : ℚ), "wasm_exec.js loaded"))] ++
      loadWASMFileMainThreadTrace inst := rfl
  rw [hsplit, List.map_append,
    List.getLast?_append_of_ne_nil _ (file_trace_ne_nil inst), file_trace_last]

lemma crypto_trace_bounds (path : CryptoLoadPath) (h : cryptoPathOk path) :
    InPercentRange ((loadCryptoInternalTrace path).map Prod.fst) := by
  cases path with
  | workerSuccess =>
    decide
  | workerFallback go inst =>
    intro p hp
    simp only [loadCryptoInternalTrace, List.map_append, List.mem_append] at hp
    rcases hp with hp | hp
    · revert hp
      revert p
      decide
    · exact module_trace_bounds go inst h p hp
  | mainThread go inst =>
    intro p hp
    simp only [loadCryptoInternalTrace, List.map_append, List.mem_append] at hp
    rcases hp with hp | hp
    · revert hp
      revert p
      decide
    · exact module_trace_bounds go inst h p hp

lemma module_trace_ne_nil (go : Bool) (inst : InstantiatePath) :
    (loadWASMModuleMainThreadTrace go inst).map Prod.fst ≠ [] := by
  cases go <;> simp [loadWASMModuleMainThreadTrace]

lemma crypto_trace_last (path : CryptoLoadPath) :
    ((loadCryptoInternalTrace path).map Prod.fst).getLast? = some 100 := by
  cases path with
  | workerSuccess => rfl
  | workerFallback go inst =>
    simp only [loadCryptoInternalTrace, List.map_append]
    rw [List.getLast?_append_of_ne_nil _ (module_trace_ne_nil go inst)]
    exact module_trace_last go inst
  | mainThread go inst =>
    simp only [loadCryptoInternalTrace, List.map_append]
    rw [List.getLast?_append_of_ne_nil _ (module_trace_ne_nil go inst)]
    exact module_trace_last go inst

lemma interleave_mem :
    ∀ (sched : List Bool) (xs ys : List ProgressEvent) (e : ProgressEvent),
      e ∈ interleave sched xs ys → e ∈ xs ∨ e ∈ ys := by
  intro sched
  induction sched with
  | nil =>
    intro xs ys e h
    exact List.mem_append.mp h
  | cons b sch ih =>
    intro xs ys e h
    cases b with
    | true =>
      cases xs with
      | nil =>
        cases ys with
        | nil => exact Or.inr h
        | cons y ys => exact Or.inr h
      | cons x xs =>
        cases ys with
        | nil => exact Or.inl h
        | cons y ys =>
          rcases List.mem_cons.mp h with rfl | h2
          · exact Or.inl (List.mem_cons_self _ _)
          · rcases ih xs (y :: ys) e h2 with h3 | h3
            · exact Or.inl (List.mem_cons_of_mem _ h3)
            · exact Or.inr h3
    | false =>
      cases xs with
      | nil =>
        cases ys with
        | nil => exact Or.inr h
        | cons y ys => exact Or.inr h
      | cons x xs =>
        cases ys with
        | nil => exact Or.inl h
        | cons y ys =>
          rcases List.mem_cons.mp h with rfl | h2
          · exact Or.inr (List.mem_cons_self _ _)
          · rcases ih (x :: xs) ys e h2 with h3 | h3
            · exact Or.inl h3
            · exact Or.inr (List.mem_cons_of_mem _ h3)

lemma map_fst_rename (g : String → String) (tr : List ProgressEvent) :
    (tr.map (fun e => (e.1, g e.2))).map Prod.fst = tr.map Prod.fst := by
  simp [List.map_map]

lemma loadboth_trace_bounds (sched : List Bool)
    (cryptoSub didSub : List ProgressEvent)
    (hc : InPercentRange (cryptoSub.map Prod.fst))
    (hd : InPercentRange (didSub.map Prod.fst)) :
    InPercentRange ((loadBothInternalTrace sched cryptoSub didSub).map Prod.fst) := by
  intro p hp
  simp only [loadBothInternalTrace, List.map_cons, List.map_append,
    List.mem_cons, List.mem_append, List.map_nil, List.not_mem_nil, or_false] at hp
  rcases hp with (rfl | hp) | rfl
  · norm_num
  · obtain ⟨ev, hev, rfl⟩ := List.mem_map.mp hp
    rcases interleave_mem sched _ _ ev hev with h1 | h1
    · have h2 : ev.1 ∈ (mapPercent (fun p => p * (3 / 10))
          (cryptoSub.map (fun e => (e.1, "Crypto: " ++ e.2)))).map Prod.fst :=
        List.mem_map_of_mem Prod.fst h1
      rw [mapPercent_fst, map_fst_rename] at h2
      obtain ⟨q, hq, hqe⟩ := List.mem_map.mp h2
      obtain ⟨hq0, hq1⟩ := hc q hq
      rw [← hqe]
      constructor
      · positivity
      · nlinarith
    · have h2 : ev.1 ∈ (mapPercent (fun p => 30 + p * (7 / 10))
          (didSub.map (fun e => (e.1, "DID: " ++ e.2)))).map Prod.fst :=
        List.mem_map_of_mem Prod.fst h1
      rw [mapPercent_fst, map_fst_rename] at h2
      obtain ⟨q, hq, hqe⟩ := List.mem_map.mp h2
      obtain ⟨hq0, hq1⟩ := hd q hq
      rw [← hqe]
      constructor
      · positivity
      · nlinarith
  · norm_num

lemma loadboth_trace_last (sched : List Bool)
    (cryptoSub didSub : List ProgressEvent) :
    ((loadBothInternalTrace sched cryptoSub didSub).map Prod.fst).getLast?
      = some 100 := by
  have hsplit : loadBothInternalTrace sched cryptoSub didSub =
      (((0 : ℚ), "Starting parallel load") ::
        interleave sched
          (mapPercent (fun p => p * (3 / 10))
            (cryptoSub.map (fun e => (e.1, "Crypto: " ++ e.2))))
          (mapPercent (fun p => 30 + p * (7 / 10))
            (didSub.map (fun e => (e.1, "DID: " ++ e.2))))) ++
      [((100 : ℚ), "Parallel loading completed")] := by
    simp [loadBothInternalTrace]
  rw [hsplit, List.map_append, List.getLast?_append_of_ne_nil _ (by simp)]
  rfl

/-- C6 counterexample: on the ordinary successful main thread load of the
crypto module (wasm_exec.js already present, WASM served from cache) the
percent sequence handed to the progress callback is
0, 10, 5, 10, 15, 20, 70, 70, 80, 90, 100 — the 10 reported by
_loadCryptoInternal is followed by the 5 reported by
loadWASMModuleMainThread, so the sequence of one successful load attempt is
not non decreasing, refuting the monotonicity claim (the worker fallback
path likewise reports 20 and then 5). -/
theorem c6_counterexample :
    ¬ Nondecreasing ((loadCryptoInternalTrace
        (CryptoLoadPath.mainThread true (InstantiatePath.cached true 0 []))).map
        Prod.fst) ∧
    ((loadCryptoInternalTrace
        (CryptoLoadPath.mainThread true (InstantiatePath.cached true 0 []))).map
        Prod.fst).getLast? = some 100 := by
  constructor <;> decide

/-- C6 amended. On every load path every reported percent lies in the
interval from 0 to 100 and a successful load ends with a report of 100 —
both for a single module load (any worker, fallback or main thread path,
assuming a declared content length is an upper bound on the bytes received)
and for the parallel both modules path under every interleaving of the two
rescaled sub progress streams — but the sequence is not non decreasing in
general, as the counterexample shows. -/
theorem c6_progress_bounds :
    (∀ path : CryptoLoadPath, cryptoPathOk path →
      InPercentRange ((loadCryptoInternalTrace path).map Prod.fst) ∧
      ((loadCryptoInternalTrace path).map Prod.fst).getLast? = some 100) ∧
    (∀ (sched : List Bool) (cryptoSub didSub : List ProgressEvent),
      InPercentRange (cryptoSub.map Prod.fst) →
      InPercentRange (didSub.map Prod.fst) →
      InPercentRange ((loadBothInternalTrace sched cryptoSub didSub).map Prod.fst) ∧
      ((loadBothInternalTrace sched cryptoSub didSub).map Prod.fst).getLast?
        = some 100) := by
  constructor
  · intro path h
    exact ⟨crypto_trace_bounds path h, crypto_trace_last path⟩
  · intro sched cryptoSub didSub hc hd
    exact ⟨loadboth_trace_bounds sched cryptoSub didSub hc hd,
      loadboth_trace_last sched cryptoSub didSub⟩

/-- Witness for C6 at a concrete main thread path with a two chunk download
of a two byte module. -/
theorem c6_progress_bounds_witness :
    cryptoPathOk (CryptoLoadPath.mainThread true
      (InstantiatePath.cached false 2 [1, 1])) ∧
    (InPercentRange ((loadCryptoInternalTrace
        (CryptoLoadPath.mainThread true
          (InstantiatePath.cached false 2 [1, 1]))).map Prod.fst) ∧
     ((loadCryptoInternalTrace
        (CryptoLoadPath.mainThread true
          (InstantiatePath.cached false 2 [1, 1]))).map Prod.fst).getLast?
        = some 100) :=
  ⟨by intro ht; decide,
   c6_progress_bounds.1 (CryptoLoadPath.mainThread true
     (InstantiatePath.cached false 2 [1, 1])) (by intro ht; decide)⟩
